import Mathlib

/-!
Verification of the werewolf-arena orchestrator against its specification.

The definitions below are a shallow embedding of the Python sources:
`werewolf/lm.py` (the Decision Gateway `generate`), `werewolf/game.py`
(the GameMaster phase functions), `werewolf/model.py` (the Seer and the
Round/GameView data model) and `werewolf/runner.py` (`resume_game`).
Machine-level aspects that do not affect the verified control flow —
temperature back-off (a float fed only to the backend), thread-pool
scheduling (results are joined in submission order, which is the order
the Python dictionaries preserve), and the YAML/Markdown parsing
libraries — are abstracted as function parameters (`backend`, `parse`,
`bidOf`, `voteOf`), while every decision taken by the repository's own
code is reproduced from the source.
-/

namespace WerewolfArena

/-- Retry budget of the Decision Gateway, from `config.py`: `RETRIES = 3`. -/
def RETRIES : Nat := 3

/-- Maximum number of debate turns per round, from `config.py`:
`MAX_DEBATE_TURNS = 8`. -/
def MAX_DEBATE_TURNS : Nat := 8

/-! ## Decision Gateway (`lm.generate` with `utils.parse_json`)

The response schemas in `prompts.py` are all flat JSON objects whose
fields are strings, so a parsed value is modelled as a string, a number,
a boolean or a one-level object with string fields; the Python value
`None` is modelled by `Option JsonVal` at every use site. -/

/-- Structured value produced by parsing a model response
(`utils.parse_json` yields a YAML/JSON value or Python `None`). -/
inductive JsonVal where
  | jstr (s : String)
  | jnum (n : Int)
  | jbool (b : Bool)
  | jdict (kvs : List (String × String))
deriving DecidableEq

/-- Truthiness of a parsed value, as Python evaluates `if result` in
`lm.generate` (empty string, zero, `False` and the empty dict are falsy). -/
def jtruthy : JsonVal → Bool
  | .jstr s => !s.isEmpty
  | .jnum n => n != 0
  | .jbool b => b
  | .jdict kvs => !kvs.isEmpty

/-- Field projection `result.get(result_key)` in `lm.generate`: defined on
dict values only; on any other value the attribute access raises
`AttributeError` (modelled by `Except.error`), which the gateway's
`except Exception` catches, turning the attempt into a retry. -/
def jget : JsonVal → String → Except Unit (Option JsonVal)
  | .jdict kvs, k => .ok ((kvs.find? (fun kv => kv.1 == k)).map (fun kv => .jstr kv.2))
  | _, _ => .error ()

/-- Outcome of `utils.parse_json` on one raw response: either the parse
raises (a YAML scanner error escapes `parse_json_str`, which catches only
`yaml.parser.ParserError`), or it returns a value or Python `None`. -/
inductive ParseOutcome where
  | raises
  | parsed (r : Option JsonVal)

/-- Body of the projection step in `lm.generate`:
`if result and result_key: result = result.get(result_key)`. -/
def projectResult (r : Option JsonVal) (result_key : Option String) :
    Except Unit (Option JsonVal) :=
  match r, result_key with
  | some v, some k => if jtruthy v then jget v k else .ok (some v)
  | _, _ => .ok r

/-- Validation step of `lm.generate`:
`if allowed_values is None or result in allowed_values`. The option lists
the repository passes are lists of player-name or digit strings, so the
Python membership test `None in allowed_values` is `False`. -/
def inAllowed (allowed_values : Option (List JsonVal)) (result : Option JsonVal) : Bool :=
  match allowed_values, result with
  | none, _ => true
  | some l, some v => decide (v ∈ l)
  | some _, none => false

/-- Result of one `lm.generate` call: the returned value, the `LmLog`
fields (`prompt`, `raw_resp`, `result`), and the number of backend
attempts actually made (instrumentation of the loop counter). -/
structure GenResult where
  value : Option JsonVal
  prompt : String
  raw_resp : String
  result : Option JsonVal
  attempts : Nat
deriving DecidableEq

/-- Retry loop of `lm.generate` (`for _ in range(RETRIES)`), with the
backend call abstracted as `backend : attempt index → raw text` (the stubs
of interest always return text, so the backend itself does not raise) and
the parser abstracted as `parse : raw text → ParseOutcome`. On a
non-returning attempt the raw response is appended to `raw_responses`; on
exhaustion the gateway returns `None` and a log whose `raw_resp` is
`"-------".join(raw_responses)`. -/
def generateLoop (backend : Nat → String) (parse : String → ParseOutcome)
    (allowed_values : Option (List JsonVal)) (result_key : Option String)
    (prompt : String) : Nat → Nat → List String → GenResult
  | 0, attempt, raws =>
    ⟨none, prompt, String.intercalate "-------" raws, none, attempt⟩
  | fuel + 1, attempt, raws =>
    let raw_resp := backend attempt
    match parse raw_resp with
    | .raises =>
        generateLoop backend parse allowed_values result_key prompt
          fuel (attempt + 1) (raws ++ [raw_resp])
    | .parsed r =>
        match projectResult r result_key with
        | .error _ =>
            generateLoop backend parse allowed_values result_key prompt
              fuel (attempt + 1) (raws ++ [raw_resp])
        | .ok res =>
            if inAllowed allowed_values res then
              ⟨res, prompt, raw_resp, r, attempt + 1⟩
            else
              generateLoop backend parse allowed_values result_key prompt
                fuel (attempt + 1) (raws ++ [raw_resp])

/-- Embedding of `lm.generate`: run the retry loop with the configured
budget, an empty `raw_responses` list and attempt counter zero. -/
def generate (backend : Nat → String) (parse : String → ParseOutcome)
    (allowed_values : Option (List JsonVal)) (result_key : Option String)
    (prompt : String) : GenResult :=
  generateLoop backend parse allowed_values result_key prompt RETRIES 0 []

/-! ## Round data model (`model.py`, class `Round`)

Only the fields the verified phases read and write are carried; each
starts at the constructor's initial value. `protected` is a Lean keyword,
so the source attribute `protected` is named `protectedPlayer` here. -/

/-- One night+day cycle (`model.Round`). -/
structure Round where
  players : List String := []
  eliminated : Option String := none
  unmasked : Option String := none
  protectedPlayer : Option String := none
  exiled : Option String := none
  debate : List (String × String) := []
  votes : List (List (String × String)) := []
  bids : List (List (String × Nat)) := []
  success : Bool := false
deriving DecidableEq

/-! ## Bidding (`game.get_max_bids`, `GameMaster.get_next_speaker`)

A Python dict is modelled as an association list in insertion order. The
per-player bid calls are fanned out to a thread pool and joined in
submission order, so collecting them is modelled by a pure function
`bidOf` applied along the player list. -/

/-- Maximum of the bid dictionary's values, `max(d.values())` (the source
raises on an empty dict; the fold's base `0` is below every bid). -/
def maxBidValue (d : List (String × Nat)) : Nat :=
  (d.map Prod.snd).foldl Nat.max 0

/-- Embedding of `game.get_max_bids`: all keys holding the highest value,
in dictionary (insertion) order. -/
def get_max_bids (d : List (String × Nat)) : List String :=
  (d.filter (fun kv => kv.2 == maxBidValue d)).map Prod.fst

/-- Bid collection in `GameMaster.get_next_speaker`: one bid per player of
the round except the immediately previous speaker (`previous_speaker` is
`None` when the debate is empty). -/
def collectBids (players : List String) (previous_speaker : Option String)
    (bidOf : String → Nat) : List (String × Nat) :=
  (players.filter (fun p => decide (some p ≠ previous_speaker))).map (fun p => (p, bidOf p))

/-- Candidate pool of `GameMaster.get_next_speaker` after the maximum-bid
filter and the mention-duplication step: when a previous utterance exists
(Python truthiness: non-`None` and non-empty), candidates whose name
occurs in it as a substring are appended once more; the speaker is then
drawn from this pool by `random.shuffle` + `random.choice`. -/
def candidatePool (bids : List (String × Nat)) (previous_dialogue : Option String) :
    List String :=
  let ps := get_max_bids bids
  match previous_dialogue with
  | some d => if d.isEmpty then ps else ps ++ ps.filter (fun n => d.containsSubstr n.toSubstring)
  | none => ps

/-! ## Voting and exile (`GameMaster.run_voting`, `GameMaster.exile`)

`Counter(values).most_common(1)[0]` counts the vote targets and returns
the target with the highest multiplicity; `most_common` sorts by count
with a stable sort over the counter's insertion order, so ties go to the
target first encountered in the iteration over the vote dictionary's
values. -/

/-- Left-to-right scan keeping the element with the strictly highest
count in `l`, retaining the earlier element on ties. -/
def bestSoFar (l : List String) : Option (String × Nat) → List String → Option (String × Nat)
  | best, [] => best
  | none, x :: xs => bestSoFar l (some (x, l.count x)) xs
  | some (b, c), x :: xs =>
    if l.count x > c then bestSoFar l (some (x, l.count x)) xs
    else bestSoFar l (some (b, c)) xs

/-- Embedding of `Counter(l).most_common(1)[0]` in `GameMaster.exile`: the
most frequent element of `l` with its multiplicity; `none` for the empty
list (where the Python indexing raises `IndexError`). `Counter` counts
the values in iteration order and `most_common` sorts stably by count, so
ties go to the first-encountered element; scanning `l` itself, replacing
the running best only on a strictly higher count, selects the same
element, because once a name has been seen its total count can never
strictly exceed the running maximum again. -/
def mostCommon1 (l : List String) : Option (String × Nat) :=
  bestSoFar l none l

/-- Embedding of `GameMaster.exile` on the round's alive roster and the
last vote tally's values (in voter insertion order): the most-voted player
is exiled iff their count strictly exceeds half the roster size
(`vote_count > len(players) / 2` over exact small floats is `2 * count >
length`); returns the updated roster and `round.exiled`. `none` models the
`IndexError` the source raises on an empty tally. -/
def exile (players : List String) (lastVotes : List String) :
    Option (List String × Option String) :=
  (mostCommon1 lastVotes).map (fun mv =>
    if 2 * mv.2 > players.length then (players.erase mv.1, some mv.1)
    else (players, none))

/-! ## Winner determination (`GameMaster.get_winner`) -/

/-- Count of alive werewolves, `len(set(players) & set(werewolf names))`. -/
def aliveWolfCount (players werewolfNames : List String) : Nat :=
  (players.toFinset ∩ werewolfNames.toFinset).card

/-- Count of the other alive players,
`len(set(players) - active_wolves)`. -/
def aliveNonWolfCount (players werewolfNames : List String) : Nat :=
  (players.toFinset \ (players.toFinset ∩ werewolfNames.toFinset)).card

/-- Embedding of `GameMaster.get_winner`. -/
def get_winner (players werewolfNames : List String) : String :=
  let active_wolves := players.toFinset ∩ werewolfNames.toFinset
  let active_villagers := players.toFinset \ active_wolves
  if active_villagers.card ≤ active_wolves.card then "Werewolves"
  else if active_wolves = ∅ then "Villagers"
  else ""

/-! ## Night resolution (`GameMaster.resolve_night_phase`,
`GameView.remove_player`)

Each still-listed player's `GameView.current_players` roster is carried as
an association list from player name to view roster. `list.remove` in
Python removes the first occurrence and raises when the element is
absent; in every reachable state modelled here the element is present, so
removal is `List.erase`. The source loops over `this_round.players`
*after* the conditional roster removal and calls
`player.gamestate.remove_player(self.this_round.eliminated)` on each of
them unconditionally — in the saved branch as well — before adding the
announcement to their observations. -/

/-- Embedding of `GameMaster.resolve_night_phase`: takes the round roster,
the per-player view rosters, and the round's recorded `eliminated` and
`protected` targets; returns the updated roster, the updated view rosters
and the broadcast announcement (appended to every remaining player's
observations by `add_announcement`). -/
def resolve_night_phase (players : List String)
    (views : List (String × List String))
    (eliminated protectedPlayer : String) :
    List String × List (String × List String) × String :=
  let step :=
    if eliminated ≠ protectedPlayer then
      (players.erase eliminated,
       "The Werewolves removed " ++ eliminated ++ " from the game during the night.")
    else
      (players, "No one was removed from the game during the night.")
  let views' := views.map (fun v =>
    if v.1 ∈ step.1 then (v.1, v.2.erase eliminated) else v)
  (step.1, views', step.2)

/-! ## Seer investigations (`model.Seer.unmask`, `Seer.reveal_and_update`,
`GameMaster.unmask`)

The Seer's `previously_unmasked` dict is an association list from
investigated name to revealed role, in insertion order. -/

/-- Role-specific state of the Seer (`model.Seer`). -/
structure SeerState where
  name : String
  previously_unmasked : List (String × String)
deriving DecidableEq

/-- Option list built by `Seer.unmask`: alive players excluding the Seer
itself and every key of `previously_unmasked` (the subsequent
`random.shuffle` permutes the list and does not change membership). -/
def unmaskOptions (s : SeerState) (current_players : List String) : List String :=
  current_players.filter
    (fun p => decide (p ≠ s.name ∧ p ∉ s.previously_unmasked.map Prod.fst))

/-- Embedding of `Seer.reveal_and_update`: record the revealed role under
the investigated player's name (a fresh dict key, appended in insertion
order). -/
def reveal_and_update (s : SeerState) (player role : String) : SeerState :=
  { s with previously_unmasked := s.previously_unmasked ++ [(player, role)] }

/-- One successful investigation as driven by `GameMaster.unmask`: the
round's view roster, the chosen target, and the target's role as revealed
from the session's player table. -/
structure InvestigateStep where
  current_players : List String
  target : String
  revealed_role : String
deriving DecidableEq

/-- Validity of a sequence of successful investigations: each chosen
target lies in the options `Seer.unmask` offered for the state reached so
far, and `GameMaster.unmask` applies `reveal_and_update` before the next
call. -/
def validRun (s : SeerState) : List InvestigateStep → Bool
  | [] => true
  | st :: rest =>
    decide (st.target ∈ unmaskOptions s st.current_players) &&
      validRun (reveal_and_update s st.target st.revealed_role) rest

/-- Seer state after a prefix of investigations. -/
def seerStateAfter (s : SeerState) (steps : List InvestigateStep) : SeerState :=
  steps.foldl (fun acc st => reveal_and_update acc st.target st.revealed_role) s

/-! ## Voting checkpoint (`GameMaster.run_voting`)

The per-player vote futures are joined in submission order, so the
checkpoint is a left-to-right pass over the round's player list with a
pure outcome function `voteOf`; a `None` vote appends the partial tally
and partial log to the round state and raises (`Except.error`). -/

/-- One entry of the vote log (`model.VoteLog`; the inner `LmLog` carries
no control flow and is omitted). -/
structure VoteLogEntry where
  player : String
  voted_for : Option String
deriving DecidableEq

/-- Loop body of `GameMaster.run_voting`: accumulate the `votes` dict and
the `vote_log` list; on the first `None` vote, return the partial tally
and the log including the failing voter's entry as the error payload. -/
def runVotingLoop (voteOf : String → Option String) :
    List String → List (String × String) → List VoteLogEntry →
    Except (List (String × String) × List VoteLogEntry)
      (List (String × String) × List VoteLogEntry)
  | [], votes, vote_log => .ok (votes, vote_log)
  | p :: rest, votes, vote_log =>
    let v := voteOf p
    let vote_log' := vote_log ++ [⟨p, v⟩]
    match v with
    | some target => runVotingLoop voteOf rest (votes ++ [(p, target)]) vote_log'
    | none => .error (votes, vote_log')

/-- Vote lists of a round's log (`model.RoundLog.votes`). -/
structure RoundLogVotes where
  votes : List (List VoteLogEntry)
deriving DecidableEq

/-- Embedding of `GameMaster.run_voting`: on success return the complete
tally and log for the caller (`run_day_phase`) to append; on a `None`
vote append the partial tally and partial log to `this_round.votes` and
`this_round_log.votes` and propagate the error (the `ValueError`), leaving
`round.success` untouched. -/
def run_voting (round : Round) (log : RoundLogVotes) (players : List String)
    (voteOf : String → Option String) :
    Except (Round × RoundLogVotes)
      (List (String × String) × List VoteLogEntry) :=
  match runVotingLoop voteOf players [] [] with
  | .ok res => .ok res
  | .error (votes, vote_log) =>
      .error ({ round with votes := round.votes ++ [votes] },
              ⟨log.votes ++ [vote_log]⟩)

/-- Tally and log of the voters before a voter, all of whom returned a
vote (used to state what `run_voting` has accumulated at the failure
point). -/
def collectedVotes (voteOf : String → Option String) (pre : List String) :
    List (String × String) :=
  pre.filterMap (fun q => (voteOf q).map (fun t => (q, t)))

/-- Vote-log entries of a list of voters. -/
def collectedLogs (voteOf : String → Option String) (pre : List String) :
    List VoteLogEntry :=
  pre.map (fun q => ⟨q, voteOf q⟩)

/-! ## Resume (`runner.resume_game`) -/

/-- Round-discard step at the top of `runner.resume_game`: if the last
persisted round is not marked successful, drop it and its round-log
entry; then reset the session's error message. The source indexes
`state.rounds[-1]`, so a persisted session has at least one round. -/
def resume_discard {α : Type} (rounds : List Round) (logs : List α)
    (_error_message : String) : List Round × List α × String :=
  match rounds.getLast? with
  | some last =>
      if last.success then (rounds, logs, "")
      else (rounds.dropLast, logs.dropLast, "")
  | none => (rounds, logs, "")

/-! ## Theorems -/

/-- C1: evaluation of `resolve_night_phase` at a failing input. When the
recorded eliminated target equals the protected target (doctor save), the
round roster is left unchanged and the "no one removed" announcement is
broadcast — but, contrary to the claim, every remaining agent's
alive-player view still loses the eliminated player (the source calls
`gamestate.remove_player(self.this_round.eliminated)` unconditionally,
outside the save check), including the saved player's own view. -/
theorem night_save_still_edits_views :
    resolve_night_phase ["Derek", "Scott", "Jacob"]
      [("Derek", ["Derek", "Scott", "Jacob"]),
       ("Scott", ["Derek", "Scott", "Jacob"]),
       ("Jacob", ["Derek", "Scott", "Jacob"])] "Scott" "Scott"
    = (["Derek", "Scott", "Jacob"],
       [("Derek", ["Derek", "Jacob"]),
        ("Scott", ["Derek", "Jacob"]),
        ("Jacob", ["Derek", "Jacob"])],
       "No one was removed from the game during the night.") := by
  decide

/-- C9: evaluation at a failing input for the view-freshness invariant.
After a night in which the doctor saves the werewolves' target, the round
roster still contains the target but every remaining agent's transient
view roster does not — the view roster diverges from the round roster
across a doctor save, contrary to the claim. -/
theorem night_save_view_roster_diverges :
    (resolve_night_phase ["Hayley", "David", "Tyler"]
      [("Hayley", ["Hayley", "David", "Tyler"]),
       ("David", ["Hayley", "David", "Tyler"]),
       ("Tyler", ["Hayley", "David", "Tyler"])] "David" "David").1
      = ["Hayley", "David", "Tyler"] ∧
    (resolve_night_phase ["Hayley", "David", "Tyler"]
      [("Hayley", ["Hayley", "David", "Tyler"]),
       ("David", ["Hayley", "David", "Tyler"]),
       ("Tyler", ["Hayley", "David", "Tyler"])] "David" "David").2.1
      = [("Hayley", ["Hayley", "Tyler"]),
         ("David", ["Hayley", "Tyler"]),
         ("Tyler", ["Hayley", "Tyler"])] ∧
    (["Hayley", "Tyler"] : List String) ≠ ["Hayley", "David", "Tyler"] := by
  refine ⟨by decide, by decide, by decide⟩

/-- C8: resume round-discard. If the last persisted round is not marked
successful, `resume_game` drops that round and its round-log entry, so
the retained round count is exactly one less than the persisted length,
and the error field is reset to empty; a session whose last round
succeeded loses no rounds. -/
theorem resume_round_discard {α : Type} (rounds : List Round) (logs : List α)
    (err : String) (last : Round) (hlast : rounds.getLast? = some last) :
    resume_discard rounds logs err =
      (if last.success then (rounds, logs, "")
       else (rounds.dropLast, logs.dropLast, "")) ∧
    rounds.dropLast.length + 1 = rounds.length := by
  have hne : rounds ≠ [] := by
    intro hnil
    rw [hnil] at hlast
    simp at hlast
  constructor
  · unfold resume_discard
    rw [hlast]
  · have hpos : 0 < rounds.length := List.length_pos.mpr hne
    rw [List.length_dropLast]
    omega

/-- Witness for C8 at a concrete two-round session whose last round
failed: the failed round and its log entry are dropped and the error is
cleared. -/
theorem resume_round_discard_witness :
    resume_discard [({} : Round), { success := false }] ["log0", "log1"] "boom"
      = ([({} : Round)], ["log0"], "") ∧
    ([({} : Round), ({ success := false } : Round)].dropLast).length + 1 = 2 := by
  exact resume_round_discard [({} : Round), { success := false }]
    ["log0", "log1"] "boom" { success := false } rfl

/-- C4 counterexample: on the empty roster the alive werewolf count is 0,
yet `get_winner` returns "Werewolves" (0 ≥ 0), not "Villagers" — so
"returns Villagers iff W = 0" fails as stated. -/
theorem get_winner_empty_roster :
    get_winner [] ["Derek", "Scott"] = "Werewolves" ∧
    aliveWolfCount [] ["Derek", "Scott"] = 0 ∧
    get_winner [] ["Derek", "Scott"] ≠ "Villagers" := by
  refine ⟨by decide, by decide, by decide⟩

/-- C4 (amended): with W the count of alive agents in the werewolf list
and V the count of the other alive agents, `get_winner` returns
"Werewolves" iff W ≥ V, "Villagers" iff W = 0 and V > 0, and the empty
(undecided) label iff 0 < W < V. -/
theorem get_winner_cases (players werewolfNames : List String) :
    (get_winner players werewolfNames = "Werewolves" ↔
      aliveNonWolfCount players werewolfNames ≤ aliveWolfCount players werewolfNames) ∧
    (get_winner players werewolfNames = "Villagers" ↔
      aliveWolfCount players werewolfNames = 0 ∧
        0 < aliveNonWolfCount players werewolfNames) ∧
    (get_winner players werewolfNames = "" ↔
      0 < aliveWolfCount players werewolfNames ∧
        aliveWolfCount players werewolfNames < aliveNonWolfCount players werewolfNames) := by
  unfold get_winner aliveWolfCount aliveNonWolfCount
  dsimp only
  split_ifs with h1 h2
  · refine ⟨⟨fun _ => h1, fun _ => rfl⟩, ?_, ?_⟩
    · constructor
      · intro hw
        exact absurd hw (by decide)
      · intro ⟨hz, hp⟩
        omega
    · constructor
      · intro hw
        exact absurd hw (by decide)
      · intro ⟨hp, hlt⟩
        omega
  · have hz : (players.toFinset ∩ werewolfNames.toFinset).card = 0 :=
      Finset.card_eq_zero.mpr h2
    refine ⟨?_, ⟨fun _ => ⟨hz, by omega⟩, fun _ => rfl⟩, ?_⟩
    · constructor
      · intro hw
        exact absurd hw (by decide)
      · intro hle
        omega
    · constructor
      · intro hw
        exact absurd hw (by decide)
      · intro ⟨hp, _⟩
        omega
  · have hpos : 0 < (players.toFinset ∩ werewolfNames.toFinset).card :=
      Finset.card_pos.mpr (Finset.nonempty_iff_ne_empty.mpr h2)
    refine ⟨?_, ?_, ⟨fun _ => ⟨hpos, by omega⟩, fun _ => rfl⟩⟩
    · constructor
      · intro hw
        exact absurd hw (by decide)
      · intro hle
        omega
    · constructor
      · intro hw
        exact absurd hw (by decide)
      · intro ⟨hz, _⟩
        omega

/-- Projection of a parse result that is Python `None` never raises and
returns `None`, whatever the result key. -/
theorem projectResult_none (key : Option String) :
    projectResult none key = Except.ok none := by
  cases key <;> rfl

/-- Unfolding of one iteration of the retry loop. -/
theorem generateLoop_succ (backend : Nat → String) (parse : String → ParseOutcome)
    (al : Option (List JsonVal)) (key : Option String) (prompt : String)
    (fuel attempt : Nat) (raws : List String) :
    generateLoop backend parse al key prompt (fuel + 1) attempt raws =
      match parse (backend attempt) with
      | .raises =>
          generateLoop backend parse al key prompt fuel (attempt + 1)
            (raws ++ [backend attempt])
      | .parsed r =>
          match projectResult r key with
          | .error _ =>
              generateLoop backend parse al key prompt fuel (attempt + 1)
                (raws ++ [backend attempt])
          | .ok res =>
              if inAllowed al res then
                ⟨res, prompt, backend attempt, r, attempt + 1⟩
              else
                generateLoop backend parse al key prompt fuel (attempt + 1)
                  (raws ++ [backend attempt]) := rfl

/-- Step lemma for the retry loop: an attempt that parses to `None` under
a validation list neither returns nor raises — it appends the raw
response and retries. -/
theorem generateLoop_step_parsed_none (backend : Nat → String)
    (parse : String → ParseOutcome) (l : List JsonVal) (key : Option String)
    (prompt : String) (fuel attempt : Nat) (raws : List String)
    (hp : parse (backend attempt) = ParseOutcome.parsed none) :
    generateLoop backend parse (some l) key prompt (fuel + 1) attempt raws =
      generateLoop backend parse (some l) key prompt fuel (attempt + 1)
        (raws ++ [backend attempt]) := by
  rw [generateLoop_succ, hp]
  dsimp only
  rw [projectResult_none]
  rfl

/-- C2 counterexample: with a backend stub whose text parses to no value
(for example the empty response, which `utils.parse_json` maps to `None`)
and no `allowedValues`/`resultKey` arguments, `generate` returns the
"no result" value after exactly ONE backend attempt — not the configured
three — and its record's raw-output field is that single attempt's raw
output, not a concatenation of three. -/
theorem generate_no_allowed_single_attempt :
    (generate (fun _ => "") (fun _ => ParseOutcome.parsed none) none none "p").attempts = 1 ∧
    (generate (fun _ => "") (fun _ => ParseOutcome.parsed none) none none "p").value = none ∧
    (generate (fun _ => "") (fun _ => ParseOutcome.parsed none) none none "p").raw_resp = "" := by
  exact ⟨rfl, rfl, rfl⟩

/-- C2 (amended): when `allowedValues` is provided, a backend stub whose
text always parses to no value makes `generate` attempt the backend
exactly `RETRIES` (3) times and then return the explicit "no result"
value `none`, together with a record whose raw-output field is the
`"-------"`-join of the three failed attempts' raw outputs; the loop is a
total function, so it neither hangs nor raises past its boundary. When
`allowedValues` is absent, such a stub is instead answered after the
first attempt (see the counterexample). -/
theorem generate_exhausts_with_allowed (backend : Nat → String)
    (parse : String → ParseOutcome) (l : List JsonVal) (key : Option String)
    (prompt : String) (h : ∀ s, parse s = ParseOutcome.parsed none) :
    generate backend parse (some l) key prompt =
      ⟨none, prompt,
        String.intercalate "-------" [backend 0, backend 1, backend 2], none, 3⟩ := by
  show generateLoop backend parse (some l) key prompt 3 0 [] = _
  rw [show (3 : Nat) = 2 + 1 from rfl,
    generateLoop_step_parsed_none backend parse l key prompt 2 0 [] (h _),
    show (2 : Nat) = 1 + 1 from rfl,
    generateLoop_step_parsed_none backend parse l key prompt 1 1 _ (h _),
    show (1 : Nat) = 0 + 1 from rfl,
    generateLoop_step_parsed_none backend parse l key prompt 0 2 _ (h _)]
  rfl

/-- Witness for C2's amended theorem on a concrete stub: three attempts,
`none` result, joined raw outputs. -/
theorem generate_exhausts_with_allowed_witness :
    generate (fun _ => "x") (fun _ => ParseOutcome.parsed none)
      (some [JsonVal.jstr "Derek"]) none "p"
    = ⟨none, "p", String.intercalate "-------" ["x", "x", "x"], none, 3⟩ := by
  exact generate_exhausts_with_allowed (fun _ => "x")
    (fun _ => ParseOutcome.parsed none) [JsonVal.jstr "Derek"] none "p" (fun _ => rfl)

/-- Any value returned by the retry loop under a validation list is a
member of that list: the only returning branch is guarded by
`inAllowed`. -/
theorem generateLoop_value_mem (backend : Nat → String)
    (parse : String → ParseOutcome) (l : List JsonVal) (key : Option String)
    (prompt : String) :
    ∀ (fuel attempt : Nat) (raws : List String) (v : JsonVal),
      (generateLoop backend parse (some l) key prompt fuel attempt raws).value = some v →
      v ∈ l := by
  intro fuel
  induction fuel with
  | zero =>
    intro attempt raws v hv
    simp [generateLoop] at hv
  | succ n ih =>
    intro attempt raws v hv
    rw [generateLoop_succ] at hv
    cases hp : parse (backend attempt) with
    | raises =>
      rw [hp] at hv
      exact ih _ _ _ hv
    | parsed r =>
      rw [hp] at hv
      dsimp only at hv
      cases hq : projectResult r key with
      | error e =>
        rw [hq] at hv
        exact ih _ _ _ hv
      | ok res =>
        rw [hq] at hv
        dsimp only at hv
        by_cases hin : inAllowed (some l) res = true
        · rw [if_pos hin] at hv
          dsimp only at hv
          cases res with
          | none => simp [inAllowed] at hin
          | some w =>
            cases hv
            exact of_decide_eq_true hin
        · rw [if_neg hin] at hv
          exact ih _ _ _ hv

/-- C7: gateway validation. With a (non-empty) `allowedValues` list, any
non-`None` value `generate` returns is a member of the list; without
`allowedValues`, the first successfully parsed result is accepted at
once and returned as-is, projected through `resultKey` when that is
given. -/
theorem generate_validation (backend : Nat → String)
    (parse : String → ParseOutcome) (key : Option String) (prompt : String) :
    (∀ (l : List JsonVal), l ≠ [] → ∀ (v : JsonVal),
      (generate backend parse (some l) key prompt).value = some v → v ∈ l) ∧
    (∀ (r res : Option JsonVal), parse (backend 0) = ParseOutcome.parsed r →
      projectResult r key = Except.ok res →
      generate backend parse none key prompt = ⟨res, prompt, backend 0, r, 1⟩) := by
  constructor
  · intro l _ v hv
    exact generateLoop_value_mem backend parse l key prompt RETRIES 0 [] v hv
  · intro r res hp hq
    show generateLoop backend parse none key prompt (2 + 1) 0 [] = _
    rw [generateLoop_succ, hp]
    dsimp only
    rw [hq]
    rfl

/-- Witness for C7 on a concrete run: a vote-style call with
`allowedValues = ["Derek"]` and `resultKey = "vote"` returns the member
"Derek"; the same call without `allowedValues` returns the projected
value after one attempt. -/
theorem generate_validation_witness :
    JsonVal.jstr "Derek" ∈ [JsonVal.jstr "Derek"] ∧
    generate (fun _ => "raw")
      (fun _ => ParseOutcome.parsed (some (JsonVal.jdict [("vote", "Derek")])))
      none (some "vote") "p"
    = ⟨some (JsonVal.jstr "Derek"), "p", "raw",
        some (JsonVal.jdict [("vote", "Derek")]), 1⟩ := by
  constructor
  · exact (generate_validation (fun _ => "raw")
      (fun _ => ParseOutcome.parsed (some (JsonVal.jdict [("vote", "Derek")])))
      (some "vote") "p").1 [JsonVal.jstr "Derek"] (by decide) (JsonVal.jstr "Derek") rfl
  · exact (generate_validation (fun _ => "raw")
      (fun _ => ParseOutcome.parsed (some (JsonVal.jdict [("vote", "Derek")])))
      (some "vote") "p").2 (some (JsonVal.jdict [("vote", "Derek")]))
      (some (JsonVal.jstr "Derek")) rfl rfl

/-- Seed of a maximum fold is below its result. -/
theorem le_foldl_max : ∀ (l : List Nat) (a : Nat), a ≤ l.foldl Nat.max a
  | [], _ => Nat.le_refl _
  | x :: xs, a =>
    Nat.le_trans (Nat.le_max_left a x) (le_foldl_max xs (Nat.max a x))

/-- Every element of a list is below its maximum fold. -/
theorem mem_le_foldl_max : ∀ (l : List Nat) (a x : Nat), x ∈ l → x ≤ l.foldl Nat.max a
  | y :: ys, a, x, hx => by
    rcases List.mem_cons.mp hx with h | h
    · subst h
      exact Nat.le_trans (Nat.le_max_right a x) (le_foldl_max ys (Nat.max a x))
    · exact mem_le_foldl_max ys (Nat.max a y) x h

/-- C5: bidding selection. The bid map collected by `get_next_speaker`
keys exactly the round's alive players minus the immediately previous
speaker; every member of the candidate pool (after the mention-based
duplication) lies in the maximum-bid set, carries a bid equal to the
maximum of the bid map's values, and no bid exceeds that maximum — so
whatever `random.choice` picks from the pool, the chosen speaker's bid is
the maximum. -/
theorem bidding_selection (players : List String) (previous_speaker : Option String)
    (bidOf : String → Nat) (previous_dialogue : Option String)
    (_hne : collectBids players previous_speaker bidOf ≠ []) :
    ((collectBids players previous_speaker bidOf).map Prod.fst
      = players.filter (fun p => decide (some p ≠ previous_speaker))) ∧
    (∀ c ∈ candidatePool (collectBids players previous_speaker bidOf) previous_dialogue,
      c ∈ get_max_bids (collectBids players previous_speaker bidOf)) ∧
    (∀ c ∈ candidatePool (collectBids players previous_speaker bidOf) previous_dialogue,
      (c, maxBidValue (collectBids players previous_speaker bidOf))
        ∈ collectBids players previous_speaker bidOf) ∧
    (∀ kv ∈ collectBids players previous_speaker bidOf,
      kv.2 ≤ maxBidValue (collectBids players previous_speaker bidOf)) := by
  have hpool : ∀ c ∈ candidatePool (collectBids players previous_speaker bidOf) previous_dialogue,
      c ∈ get_max_bids (collectBids players previous_speaker bidOf) := by
    intro c hc
    unfold candidatePool at hc
    cases previous_dialogue with
    | none => exact hc
    | some d =>
      dsimp only at hc
      by_cases hd : d.isEmpty
      · rw [if_pos hd] at hc
        exact hc
      · rw [if_neg hd] at hc
        rcases List.mem_append.mp hc with h | h
        · exact h
        · exact (List.mem_filter.mp h).1
  have hmax : ∀ c ∈ get_max_bids (collectBids players previous_speaker bidOf),
      (c, maxBidValue (collectBids players previous_speaker bidOf))
        ∈ collectBids players previous_speaker bidOf := by
    intro c hc
    unfold get_max_bids at hc
    rcases List.mem_map.mp hc with ⟨kv, hkv, hfst⟩
    have hmem := (List.mem_filter.mp hkv).1
    have hval : kv.2 = maxBidValue (collectBids players previous_speaker bidOf) :=
      by simpa using (List.mem_filter.mp hkv).2
    have : kv = (c, maxBidValue (collectBids players previous_speaker bidOf)) := by
      cases kv
      simp_all
    rw [← this]
    exact hmem
  refine ⟨?_, hpool, fun c hc => hmax c (hpool c hc), ?_⟩
  · unfold collectBids
    rw [List.map_map]
    rw [show (Prod.fst ∘ fun p : String => (p, bidOf p)) = id from rfl, List.map_id]
  · intro kv hkv
    unfold maxBidValue
    exact mem_le_foldl_max _ 0 kv.2 (List.mem_map.mpr ⟨kv, hkv, rfl⟩)

/-- Witness for C5 on a concrete round: three alive players, previous
speaker Derek, Scott holding the strictly highest bid; the bid map omits
Derek, and Scott's maximal bid is in the map. -/
theorem bidding_selection_witness :
    (collectBids ["Derek", "Scott", "Jacob"] (some "Derek")
        (fun p => if p = "Scott" then 4 else 1) ≠ []) ∧
    ("Scott", 4) ∈ collectBids ["Derek", "Scott", "Jacob"] (some "Derek")
        (fun p => if p = "Scott" then 4 else 1) := by
  refine ⟨by decide, ?_⟩
  have h := bidding_selection ["Derek", "Scott", "Jacob"] (some "Derek")
    (fun p => if p = "Scott" then 4 else 1) none (by decide)
  exact h.2.2.1 "Scott" (by decide)

/-- Loop lemma for `run_voting`: with every voter before `p` returning a
vote and `p` returning `None`, the loop raises with the accumulated
partial tally and the log including `p`'s failed entry. -/
theorem runVotingLoop_error (voteOf : String → Option String) (p : String)
    (hp : voteOf p = none) :
    ∀ (pre post : List String) (acc : List (String × String)) (vlog : List VoteLogEntry),
      (∀ q ∈ pre, (voteOf q).isSome) →
      runVotingLoop voteOf (pre ++ p :: post) acc vlog =
        .error (acc ++ collectedVotes voteOf pre,
                vlog ++ collectedLogs voteOf pre ++ [⟨p, none⟩])
  | [], post, acc, vlog, _ => by
    simp only [List.nil_append, runVotingLoop, hp, collectedVotes, collectedLogs,
      List.filterMap_nil, List.map_nil, List.append_nil]
  | q :: pre, post, acc, vlog, hq => by
    obtain ⟨t, ht⟩ := Option.isSome_iff_exists.mp (hq q (List.mem_cons_self q pre))
    have hrest : ∀ x ∈ pre, (voteOf x).isSome :=
      fun x hx => hq x (List.mem_cons_of_mem q hx)
    simp only [List.cons_append, runVotingLoop, ht, List.append_eq]
    rw [runVotingLoop_error voteOf p hp pre post (acc ++ [(q, t)])
      (vlog ++ [({ player := q, voted_for := some t } : VoteLogEntry)]) hrest]
    simp [collectedVotes, collectedLogs, ht]

/-- C10: a voting checkpoint in which some agent's vote resolves to "no
result" raises to the caller, and before the error propagates the votes
and per-voter log entries collected so far in the checkpoint (including
the failing voter's `None` entry in the log) are appended to the round's
vote-tally list and the round log's vote list; the round's success flag
is left `false`. -/
theorem voting_checkpoint_partial_state (round : Round) (log : RoundLogVotes)
    (voteOf : String → Option String) (pre post : List String) (p : String)
    (hpre : ∀ q ∈ pre, (voteOf q).isSome) (hp : voteOf p = none)
    (hs : round.success = false) :
    run_voting round log (pre ++ p :: post) voteOf =
      .error ({ round with votes := round.votes ++ [collectedVotes voteOf pre] },
              ⟨log.votes ++ [collectedLogs voteOf pre ++ [⟨p, none⟩]]⟩) ∧
    ({ round with votes := round.votes ++ [collectedVotes voteOf pre] } : Round).success
      = false := by
  constructor
  · unfold run_voting
    rw [runVotingLoop_error voteOf p hp pre post [] [] hpre]
    simp
  · exact hs

/-- Witness for C10 at a concrete checkpoint: Derek votes, Scott returns
no result; the partial tally `[("Derek","Scott")]` and the two log
entries are appended and the error is raised with success still false. -/
theorem voting_checkpoint_partial_state_witness :
    run_voting ({} : Round) ⟨[]⟩ ["Derek", "Scott", "Jacob"]
        (fun q => if q = "Derek" then some "Scott" else none) =
      .error ({ votes := [[("Derek", "Scott")]] },
              ⟨[[⟨"Derek", some "Scott"⟩, ⟨"Scott", none⟩]]⟩) ∧
    ({ votes := [[("Derek", "Scott")]] } : Round).success = false := by
  exact voting_checkpoint_partial_state ({} : Round) ⟨[]⟩
    (fun q => if q = "Derek" then some "Scott" else none)
    ["Derek"] ["Jacob"] "Scott" (by decide) (by decide) rfl

/-- Membership in the Seer's option list implies being alive, not the
Seer, and not previously investigated. -/
theorem unmaskOptions_spec (s : SeerState) (roster : List String) (p : String)
    (hp : p ∈ unmaskOptions s roster) :
    p ∈ roster ∧ p ≠ s.name ∧ p ∉ s.previously_unmasked.map Prod.fst := by
  unfold unmaskOptions at hp
  have h := List.mem_filter.mp hp
  exact ⟨h.1, (of_decide_eq_true h.2).1, (of_decide_eq_true h.2).2⟩

/-- Recording a revelation does not change the Seer's name. -/
theorem reveal_and_update_name (s : SeerState) (t r : String) :
    (reveal_and_update s t r).name = s.name := rfl

/-- Recording a revelation appends the target to the investigated keys. -/
theorem reveal_and_update_keys (s : SeerState) (t r : String) :
    (reveal_and_update s t r).previously_unmasked.map Prod.fst
      = s.previously_unmasked.map Prod.fst ++ [t] := by
  simp [reveal_and_update]

/-- Induction core for valid investigation runs: distinct targets, targets
outside the initial state's exclusions, and each revelation recorded
before the next call. -/
theorem validRun_facts : ∀ (steps : List InvestigateStep) (s : SeerState),
    validRun s steps = true →
    (steps.map InvestigateStep.target).Nodup ∧
    (∀ st ∈ steps, st.target ≠ s.name ∧
      st.target ∉ s.previously_unmasked.map Prod.fst) ∧
    (∀ (i : Nat) (hi : i < steps.length),
      ((steps.get ⟨i, hi⟩).target, (steps.get ⟨i, hi⟩).revealed_role) ∈
        (seerStateAfter s (steps.take (i + 1))).previously_unmasked)
  | [], _, _ => by
    refine ⟨List.nodup_nil, by simp, ?_⟩
    intro i hi
    simp at hi
  | st :: rest, s, h => by
    rw [validRun, Bool.and_eq_true, decide_eq_true_iff] at h
    obtain ⟨h1, h2⟩ := h
    obtain ⟨-, hname, hkeys⟩ := unmaskOptions_spec s st.current_players st.target h1
    obtain ⟨ih1, ih2, ih3⟩ :=
      validRun_facts rest (reveal_and_update s st.target st.revealed_role) h2
    refine ⟨?_, ?_, ?_⟩
    · rw [List.map_cons, List.nodup_cons]
      refine ⟨?_, ih1⟩
      intro hmem
      obtain ⟨st', hst', htgt⟩ := List.mem_map.mp hmem
      have hnot := (ih2 st' hst').2
      rw [reveal_and_update_keys, htgt] at hnot
      exact hnot (List.mem_append_right _ (List.mem_singleton.mpr rfl))
    · intro st' hst'
      rcases List.mem_cons.mp hst' with heq | hmem
      · subst heq
        exact ⟨hname, hkeys⟩
      · have h' := ih2 st' hmem
        rw [reveal_and_update_name, reveal_and_update_keys] at h'
        exact ⟨h'.1, fun hc => h'.2 (List.mem_append_left _ hc)⟩
    · intro i hi
      cases i with
      | zero =>
        simp [seerStateAfter, reveal_and_update]
      | succ j =>
        have hj : j < rest.length := by
          simpa using Nat.lt_of_succ_lt_succ hi
        simpa [seerStateAfter] using ih3 j hj

/-- C6: Seer non-repetition. Along every valid sequence of successful
investigate calls, the options offered exclude the Seer itself and every
previously investigated agent, no two calls choose the same target, the
chosen targets avoid the initial investigated set, and each successful
investigation records the target with its revealed role in the Seer's
investigated mapping before the next call. -/
theorem seer_non_repetition (s : SeerState) (steps : List InvestigateStep)
    (h : validRun s steps = true) :
    (steps.map InvestigateStep.target).Nodup ∧
    (∀ st ∈ steps, st.target ≠ s.name ∧
      st.target ∉ s.previously_unmasked.map Prod.fst) ∧
    (∀ (i : Nat) (hi : i < steps.length),
      ((steps.get ⟨i, hi⟩).target, (steps.get ⟨i, hi⟩).revealed_role) ∈
        (seerStateAfter s (steps.take (i + 1))).previously_unmasked) ∧
    (∀ (s' : SeerState) (roster : List String) (q : String),
      q ∈ unmaskOptions s' roster →
        q ∈ roster ∧ q ≠ s'.name ∧ q ∉ s'.previously_unmasked.map Prod.fst) := by
  obtain ⟨h1, h2, h3⟩ := validRun_facts steps s h
  exact ⟨h1, h2, h3, fun s' roster q hq => unmaskOptions_spec s' roster q hq⟩

/-- Witness for C6 on a concrete two-investigation run: the two targets
are distinct. -/
theorem seer_non_repetition_witness :
    (List.map InvestigateStep.target
      [⟨["Hayley", "Derek", "Scott"], "Derek", "Werewolf"⟩,
       ⟨["Hayley", "Derek", "Scott"], "Scott", "Villager"⟩]).Nodup := by
  exact (seer_non_repetition ⟨"Hayley", []⟩
    [⟨["Hayley", "Derek", "Scott"], "Derek", "Werewolf"⟩,
     ⟨["Hayley", "Derek", "Scott"], "Scott", "Villager"⟩] (by decide)).1

/-- A scan seeded with an accumulator always yields a result. -/
theorem bestSoFar_isSome (l : List String) :
    ∀ (xs : List String) (p : String × Nat), ∃ q, bestSoFar l (some p) xs = some q
  | [], p => ⟨p, rfl⟩
  | x :: xs, (b, c) => by
    rw [bestSoFar]
    by_cases hgt : l.count x > c
    · rw [if_pos hgt]
      exact bestSoFar_isSome l xs (x, l.count x)
    · rw [if_neg hgt]
      exact bestSoFar_isSome l xs (b, c)

/-- Invariant of the scan: the result dominates the seed count and every
scanned element's count, and is either the seed or a scanned element
whose count strictly exceeds the seed's and everything scanned before
it. -/
theorem bestSoFar_acc_spec (l : List String) :
    ∀ (xs : List String) (b : String) (c : Nat) (m : String) (cm : Nat),
      bestSoFar l (some (b, c)) xs = some (m, cm) →
      c ≤ cm ∧ (∀ y ∈ xs, l.count y ≤ cm) ∧
        ((m = b ∧ cm = c) ∨
          (∃ x₁ x₂, xs = x₁ ++ m :: x₂ ∧ cm = l.count m ∧ c < cm ∧
            ∀ y ∈ x₁, l.count y < cm)) := by
  intro xs
  induction xs with
  | nil =>
    intro b c m cm hm
    rw [bestSoFar] at hm
    obtain ⟨rfl, rfl⟩ : b = m ∧ c = cm := by
      cases hm
      exact ⟨rfl, rfl⟩
    exact ⟨Nat.le_refl _, by simp, Or.inl ⟨rfl, rfl⟩⟩
  | cons x xs ih =>
    intro b c m cm hm
    rw [bestSoFar] at hm
    by_cases hgt : l.count x > c
    · rw [if_pos hgt] at hm
      obtain ⟨hle, hxs, hcase⟩ := ih x (l.count x) m cm hm
      refine ⟨Nat.le_trans (Nat.le_of_lt hgt) hle, ?_, ?_⟩
      · intro y hy
        rcases List.mem_cons.mp hy with rfl | hy'
        · exact hle
        · exact hxs y hy'
      · rcases hcase with ⟨rfl, rfl⟩ | ⟨x₁, x₂, hsplit, hcm, hlt, hpre⟩
        · exact Or.inr ⟨[], xs, rfl, rfl, hgt, by simp⟩
        · refine Or.inr ⟨x :: x₁, x₂, by rw [hsplit, List.cons_append],
            hcm, Nat.lt_trans hgt hlt, ?_⟩
          intro y hy
          rcases List.mem_cons.mp hy with rfl | hy'
          · exact hlt
          · exact hpre y hy'
    · rw [if_neg hgt] at hm
      obtain ⟨hle, hxs, hcase⟩ := ih b c m cm hm
      refine ⟨hle, ?_, ?_⟩
      · intro y hy
        rcases List.mem_cons.mp hy with rfl | hy'
        · exact Nat.le_trans (Nat.le_of_not_lt hgt) hle
        · exact hxs y hy'
      · rcases hcase with hl | ⟨x₁, x₂, hsplit, hcm, hlt, hpre⟩
        · exact Or.inl hl
        · refine Or.inr ⟨x :: x₁, x₂, by rw [hsplit, List.cons_append], hcm, hlt, ?_⟩
          intro y hy
          rcases List.mem_cons.mp hy with rfl | hy'
          · exact Nat.lt_of_le_of_lt (Nat.le_of_not_lt hgt) hlt
          · exact hpre y hy'

/-- Characterization of `mostCommon1` on a non-empty list: it returns an
element of maximal multiplicity, and every element strictly before its
(first) occurrence in the list has a strictly smaller multiplicity — the
first-encountered tie-break of `Counter.most_common`. -/
theorem mostCommon1_spec (l : List String) (hne : l ≠ []) :
    ∃ m c, mostCommon1 l = some (m, c) ∧ l.count m = c ∧ (∀ y, l.count y ≤ c) ∧
      ∃ l₁ l₂, l = l₁ ++ m :: l₂ ∧ ∀ y ∈ l₁, l.count y < c := by
  obtain ⟨x, xs, rfl⟩ : ∃ x xs, l = x :: xs := by
    cases l with
    | nil => exact absurd rfl hne
    | cons x xs => exact ⟨x, xs, rfl⟩
  obtain ⟨⟨m, cm⟩, hq⟩ := bestSoFar_isSome (x :: xs) xs (x, (x :: xs).count x)
  obtain ⟨hle, hxs, hcase⟩ :=
    bestSoFar_acc_spec (x :: xs) xs x ((x :: xs).count x) m cm hq
  refine ⟨m, cm, hq, ?_, ?_, ?_⟩
  · rcases hcase with ⟨rfl, rfl⟩ | ⟨_, _, _, hcm, _, _⟩
    · rfl
    · exact hcm.symm
  · intro y
    by_cases hy : y ∈ x :: xs
    · rcases List.mem_cons.mp hy with rfl | hy'
      · exact hle
      · exact hxs y hy'
    · rw [List.count_eq_zero_of_not_mem hy]
      exact Nat.zero_le _
  · rcases hcase with ⟨rfl, rfl⟩ | ⟨x₁, x₂, hsplit, _, hltc, hpre⟩
    · exact ⟨[], xs, rfl, by simp⟩
    · refine ⟨x :: x₁, x₂, by rw [hsplit, List.cons_append], ?_⟩
      intro y hy
      rcases List.mem_cons.mp hy with rfl | hy'
      · exact hltc
      · exact hpre y hy'

/-- C3: majority exile. For every non-empty final vote tally (the values
of the vote dictionary in counting order) over the round's roster,
`exile` removes the most-voted agent exactly when that agent's vote count
strictly exceeds half the number of currently alive agents, and removes
no one otherwise; the most-voted agent carries the maximal vote count,
and ties among maximal counts are broken in favour of the name first
encountered in the counting order (every name before it in the tally has
a strictly smaller count). -/
theorem majority_exile (players lastVotes : List String) (hne : lastVotes ≠ []) :
    ∃ m c, mostCommon1 lastVotes = some (m, c) ∧
      lastVotes.count m = c ∧
      (∀ y, lastVotes.count y ≤ c) ∧
      (∃ l₁ l₂, lastVotes = l₁ ++ m :: l₂ ∧ ∀ y ∈ l₁, lastVotes.count y < c) ∧
      (2 * c > players.length →
        exile players lastVotes = some (players.erase m, some m)) ∧
      (¬ 2 * c > players.length →
        exile players lastVotes = some (players, none)) := by
  obtain ⟨m, c, hmc, hcount, hmax, hsplit⟩ := mostCommon1_spec lastVotes hne
  refine ⟨m, c, hmc, hcount, hmax, hsplit, ?_, ?_⟩
  · intro hgt
    unfold exile
    rw [hmc]
    rw [Option.map_some']
    rw [if_pos hgt]
  · intro hngt
    unfold exile
    rw [hmc]
    rw [Option.map_some']
    rw [if_neg hngt]

/-- Witness for C3 at the specification's own example: six alive agents
and the tally 3–2–1; three votes do not strictly exceed half of six, so
no one is exiled and the roster is unchanged. -/
theorem majority_exile_witness :
    exile ["Derek", "Scott", "Jacob", "Isaac", "Hayley", "David"]
      ["Derek", "Derek", "Derek", "Scott", "Scott", "Jacob"]
    = some (["Derek", "Scott", "Jacob", "Isaac", "Hayley", "David"], none) := by
  obtain ⟨m, c, hmc, -, -, -, -, hno⟩ :=
    majority_exile ["Derek", "Scott", "Jacob", "Isaac", "Hayley", "David"]
      ["Derek", "Derek", "Derek", "Scott", "Scott", "Jacob"] (by decide)
  have hval : (some (m, c) : Option (String × Nat)) = some ("Derek", 3) := by
    rw [← hmc]
    decide
  obtain ⟨rfl, rfl⟩ : m = "Derek" ∧ c = 3 := by
    injection hval with h
    exact ⟨congrArg Prod.fst h, congrArg Prod.snd h⟩
  exact hno (by decide)

end WerewolfArena
